import Mathlib

/-!
# GuessAndDraw: stroke capture, replay and recognition requests

A shallow embedding of `static/js/drawing.js` and `static/js/api-selector.js`.

* The 2D context is a record of its stroke style, its current path and the
  painted surface. The surface is the ordered list of styled line segments
  painted since the last `clearRect` over the whole canvas.
* Both scripts run in one page and share the DOM elements `resultArea`,
  `loadingIndicator` and `drawingCanvas`, so one `State` holds the variables of
  both closures next to the DOM values they read and write.
* Coordinates are integers and colours are the strings the colour input
  supplies; the programs only copy and compare these values.
* A handler that can throw returns `Except State State`; the error case carries
  the state at the moment of the throw, from which the page goes on handling
  events.
-/

namespace GuessAndDraw

/-! ## Data model -/

/-- A recorded position `{x, y}`. -/
structure Point where
  x : Int
  y : Int
  deriving DecidableEq, Repr

/-- The object `{color, width}` stored with a stroke. `currentStyle` starts as
`{}`, whose two properties are `undefined`: that is `none` here. -/
structure Style where
  color : Option String
  width : Option Nat
  deriving DecidableEq, Repr

/-- An element `{points, style}` of `paths`. -/
structure Path where
  points : List Point
  style : Style
  deriving DecidableEq, Repr

/-- One painted line segment with the stroke style it was painted in. -/
structure Segment where
  x0 : Int
  y0 : Int
  x1 : Int
  y1 : Int
  strokeStyle : String
  lineWidth : Nat
  deriving DecidableEq, Repr

/-- The `CanvasRenderingContext2D` of `drawingCanvas`: stroke style, the current
path (its last point and its line segments) and the painted surface. -/
structure Ctx where
  strokeStyle : String
  lineWidth : Nat
  pen : Option Point
  pathSegs : List (Point × Point)
  surface : List Segment
  deriving DecidableEq, Repr

namespace Ctx

/-- Assignment `ctx.strokeStyle = v`; assigning `undefined` is ignored by the
canvas. -/
def setStrokeStyle (c : Ctx) (v : Option String) : Ctx :=
  match v with
  | none => c
  | some col => { c with strokeStyle := col }

/-- Assignment `ctx.lineWidth = v`; assigning `undefined` is ignored by the
canvas. -/
def setLineWidth (c : Ctx) (v : Option Nat) : Ctx :=
  match v with
  | none => c
  | some w => { c with lineWidth := w }

/-- Method `ctx.beginPath()`: empties the current path. -/
def beginPath (c : Ctx) : Ctx :=
  { c with pen := none, pathSegs := [] }

/-- Method `ctx.moveTo(x, y)`: starts a subpath at the point. -/
def moveTo (c : Ctx) (x y : Int) : Ctx :=
  { c with pen := some ⟨x, y⟩ }

/-- Method `ctx.lineTo(x, y)`: joins the last point of the path to the point; on
an empty path it only sets the point. -/
def lineTo (c : Ctx) (x y : Int) : Ctx :=
  match c.pen with
  | none => { c with pen := some ⟨x, y⟩ }
  | some q => { c with pen := some ⟨x, y⟩, pathSegs := c.pathSegs ++ [(q, ⟨x, y⟩)] }

/-- Method `ctx.stroke()`: paints every line segment of the current path in the
current stroke style. -/
def stroke (c : Ctx) : Ctx :=
  { c with surface := c.surface ++
      c.pathSegs.map fun pq => ⟨pq.1.x, pq.1.y, pq.2.x, pq.2.y, c.strokeStyle, c.lineWidth⟩ }

/-- Call `ctx.clearRect(0, 0, canvas.width, canvas.height)`: wipes the surface. -/
def clearRect (c : Ctx) : Ctx :=
  { c with surface := [] }

end Ctx

/-! ## Recognition data -/

/-- A parsed JSON value, the `data` of a response. Numbers are integers here:
the programs only test them for truthiness and print them. -/
inductive Json where
  | null
  | bool (b : Bool)
  | num (n : Int)
  | str (s : String)
  | arr (items : List Json)
  | obj (fields : List (String × Json))

/-- The error objects the `catch` callbacks receive. -/
inductive JsError where
  | typeError
  | parseError (message : String)
  | network (message : String)
  deriving DecidableEq, Repr

/-- The markup assigned to `resultArea.innerHTML`, by template. -/
inductive ResultView where
  | markup (html : String)
  | blank
  | hint
  | described (prediction : Option Json) (formattedContent : String)
  | rated (apiName : String) (prediction confidence : Option Json)
  | recognitionFailed (message : Json)
  | requestFailed (error : JsError)

/-- Which function issued a request, hence which callbacks settle it. -/
inductive Issuer where
  | guessButton
  | windowAiGuess
  deriving DecidableEq, Repr

/-- A `fetch` that was issued: a POST of `{imageData}` to `url`. The image is
the canvas surface at the time of the call. -/
structure Request where
  issuer : Issuer
  url : String
  imageData : List Segment
  deriving DecidableEq, Repr

/-- How a request ends: `fetch` rejects, `response.json()` rejects, or the body
parses to `data`. -/
inductive Outcome where
  | rejected (error : JsError)
  | badBody (error : JsError)
  | parsed (data : Json)

/-! ## Page state -/

/-- The variables of both closures and the DOM values they use. -/
structure State where
  isDrawing : Bool
  lastX : Int
  lastY : Int
  paths : List Path
  currentPath : List Point
  currentStyle : Style
  currentApi : String
  ctx : Ctx
  colorPicker : String
  lineWidth : Nat
  resultArea : ResultView
  loadingHidden : Bool
  pending : List Request

/-- State after both `DOMContentLoaded` callbacks have run, for the values the
page markup gives the two inputs, the result area and the indicator. -/
def init (color : String) (width : Nat) (result : ResultView) (hidden : Bool) : State where
  isDrawing := false
  lastX := 0
  lastY := 0
  paths := []
  currentPath := []
  currentStyle := ⟨none, none⟩
  currentApi := "baidu"
  ctx := ⟨color, width, none, [], []⟩
  colorPicker := color
  lineWidth := width
  resultArea := result
  loadingHidden := hidden
  pending := []

/-! ## drawing.js -/

/-- Function `startDrawing(e)`, with `pos = getPosition(e)`. -/
def startDrawing (s : State) (pos : Point) : State :=
  { s with
    isDrawing := true
    lastX := pos.x
    lastY := pos.y
    currentPath := [⟨pos.x, pos.y⟩]
    currentStyle := ⟨some s.ctx.strokeStyle, some s.ctx.lineWidth⟩ }

/-- Function `draw(e)`, with `pos = getPosition(e)`. -/
def draw (s : State) (pos : Point) : State :=
  if s.isDrawing then
    { s with
      ctx := (((s.ctx.beginPath).moveTo s.lastX s.lastY).lineTo pos.x pos.y).stroke
      lastX := pos.x
      lastY := pos.y
      currentPath := s.currentPath ++ [⟨pos.x, pos.y⟩] }
  else s

/-- Function `stopDrawing()`. -/
def stopDrawing (s : State) : State :=
  if s.isDrawing then
    if s.currentPath.length > 0 then
      { s with isDrawing := false, paths := s.paths ++ [⟨s.currentPath, s.currentStyle⟩] }
    else
      { s with isDrawing := false }
  else s

/-- Function `clearCanvas()`. -/
def clearCanvas (s : State) : State :=
  { s with ctx := s.ctx.clearRect, paths := [], resultArea := .hint }

/-- The callback of `paths.forEach` in `redrawCanvas`. Reading
`path.points[0].x` of a stroke without points throws. -/
def drawPath (c : Ctx) (path : Path) : Except Ctx Ctx :=
  let c := c.setStrokeStyle path.style.color
  let c := c.setLineWidth path.style.width
  let c := c.beginPath
  match path.points with
  | [] => .error c
  | p0 :: rest => .ok ((rest.foldl (fun c p => c.lineTo p.x p.y) (c.moveTo p0.x p0.y)).stroke)

/-- The loop `paths.forEach(...)`: a throw ends it. -/
def drawPaths (c : Ctx) : List Path → Except Ctx Ctx
  | [] => .ok c
  | path :: rest =>
    match drawPath c path with
    | .error c' => .error c'
    | .ok c' => drawPaths c' rest

/-- Function `redrawCanvas()`. -/
def redrawCanvas (s : State) : Except State State :=
  match drawPaths s.ctx.clearRect s.paths with
  | .error c => .error { s with ctx := c }
  | .ok c =>
    .ok { s with ctx := (c.setStrokeStyle (some s.colorPicker)).setLineWidth (some s.lineWidth) }

/-- Function `undoLastPath()`. -/
def undoLastPath (s : State) : Except State State :=
  if s.paths.length > 0 then
    redrawCanvas { s with paths := s.paths.dropLast }
  else .ok s

/-- Function `updateColor()`. -/
def updateColor (s : State) : State :=
  { s with ctx := s.ctx.setStrokeStyle (some s.colorPicker) }

/-- Function `updateLineWidth()`. -/
def updateLineWidth (s : State) : State :=
  { s with ctx := s.ctx.setLineWidth (some s.lineWidth) }

/-- What a full redraw of the state paints, if it does not throw. -/
def replayed (s : State) : Option (List Segment) :=
  match redrawCanvas s with
  | .ok s' => some s'.ctx.surface
  | .error _ => none

/-! ## Events of the canvas and the tool controls -/

/-- The listeners `drawing.js` registers, with the position of a pointer event
and the value a user gives an input before its listener runs. -/
inductive Event where
  | startDrawing (pos : Point)
  | draw (pos : Point)
  | stopDrawing
  | clearCanvas
  | undoLastPath
  | pickColor (value : String)
  | updateColor
  | pickLineWidth (value : Nat)
  | updateLineWidth
  deriving DecidableEq, Repr

/-- Run the listener of one event. -/
def step (s : State) : Event → Except State State
  | .startDrawing pos => .ok (startDrawing s pos)
  | .draw pos => .ok (draw s pos)
  | .stopDrawing => .ok (stopDrawing s)
  | .clearCanvas => .ok (clearCanvas s)
  | .undoLastPath => undoLastPath s
  | .pickColor value => .ok { s with colorPicker := value }
  | .updateColor => .ok (updateColor s)
  | .pickLineWidth value => .ok { s with lineWidth := value }
  | .updateLineWidth => .ok (updateLineWidth s)

/-- The state the page is left in, whether or not the listener threw. -/
def settled : Except State State → State
  | .ok s => s
  | .error s => s

/-- Handle a sequence of events, one listener at a time. -/
def run (s : State) (es : List Event) : State :=
  es.foldl (fun s e => settled (step s e)) s

/-- Whether some listener of the sequence throws. -/
def throws (s : State) : List Event → Bool
  | [] => false
  | e :: es =>
    match step s e with
    | .error _ => true
    | .ok s' => throws s' es

/-- One complete gesture: pointer down at `origin`, a move to each of `moves`,
pointer up. -/
structure Gesture where
  origin : Point
  moves : List Point
  deriving DecidableEq, Repr

/-- The calls of a gesture: one `startDrawing`, the `draw` calls, one
`stopDrawing`. -/
def Gesture.events (g : Gesture) : List Event :=
  .startDrawing g.origin :: (g.moves.map .draw ++ [.stopDrawing])

/-- The calls of a sequence of gestures. -/
def gestureEvents : List Gesture → List Event
  | [] => []
  | g :: gs => g.events ++ gestureEvents gs

/-- No stroke is open, or the open stroke is still its origin point alone. -/
def quiet (s : State) : Bool :=
  !s.isDrawing || decide (s.currentPath.length ≤ 1)

/-- A sequence of the five drawing calls in which `startDrawing`,
`undoLastPath` and `clearCanvas` come only in a `quiet` state. -/
def disciplined (s : State) : List Event → Bool
  | [] => true
  | e :: es =>
    (match e with
      | .startDrawing _ => quiet s
      | .undoLastPath => quiet s
      | .clearCanvas => quiet s
      | .draw _ => true
      | .stopDrawing => true
      | _ => false) && disciplined (settled (step s e)) es

/-! ## Segment lists, stated directly -/

/-- The segments joining consecutive points, in one style. -/
def strokeSegs (color : String) (width : Nat) (points : List Point) : List Segment :=
  (points.zip points.tail).map fun pq => ⟨pq.1.x, pq.1.y, pq.2.x, pq.2.y, color, width⟩

/-- The segments of a committed stroke in its stored style. -/
def Path.segments (p : Path) : List Segment :=
  match p.style.color, p.style.width with
  | some c, some w => strokeSegs c w p.points
  | _, _ => []

/-- The segments of a history, stroke after stroke. -/
def historySegs : List Path → List Segment
  | [] => []
  | p :: ps => p.segments ++ historySegs ps

/-- Every stroke has a point and a style with both properties set. -/
def WellFormed (paths : List Path) : Prop :=
  ∀ p ∈ paths, p.points ≠ [] ∧ (∃ c, p.style.color = some c) ∧ (∃ w, p.style.width = some w)

/-! ## Recognition requests -/

/-- Property read `data[key]` for the keys the callbacks read, none of which is
inherited: it throws on `null`, and is `undefined` unless `data` is an object
with that key. -/
def Json.prop (data : Json) (key : String) : Except JsError (Option Json) :=
  match data with
  | .null => .error .typeError
  | .obj fields => .ok (fields.lookup key)
  | _ => .ok none

/-- Truthiness of a value; `none` is `undefined`. -/
def truthy : Option Json → Bool
  | none => false
  | some .null => false
  | some (.bool b) => b
  | some (.num n) => decide (n ≠ 0)
  | some (.str t) => decide (t ≠ "")
  | some (.arr _) => true
  | some (.obj _) => true

/-- Expression `v || d`. -/
def jsOr (v : Option Json) (d : Json) : Json :=
  match v with
  | some j => if truthy (some j) then j else d
  | none => d

/-- Characters the pattern `\s` matches. -/
def isSpace (c : Char) : Bool :=
  c.toNat ∈ [0x9, 0xA, 0xB, 0xC, 0xD, 0x20, 0xA0, 0x1680, 0x2028, 0x2029, 0x202F, 0x205F,
    0x3000, 0xFEFF] || (0x2000 ≤ c.toNat && c.toNat ≤ 0x200A)

/-- Call `fullContent.replace(/\n/g, '<br>').replace(/\s/g, '&nbsp;')`; it
throws unless `fullContent` is a string. -/
def formatContent (fullContent : Json) : Except JsError String :=
  match fullContent with
  | .str t =>
    let t1 := String.join (t.toList.map fun c => if c = '\n' then "<br>" else String.singleton c)
    .ok (String.join (t1.toList.map fun c => if isSpace c then "&nbsp;" else String.singleton c))
  | _ => .error .typeError

/-- Expression `currentApi === 'baidu' ? '/api/drawing/recognize' :
'/api/drawing/doubao/recognize'`. -/
def apiUrl (currentApi : String) : String :=
  if currentApi = "baidu" then "/api/drawing/recognize" else "/api/drawing/doubao/recognize"

/-- Expression `currentApi === 'baidu' ? '百度AI' : '豆包AI'`. -/
def apiName (currentApi : String) : String :=
  if currentApi = "baidu" then "百度AI" else "豆包AI"

/-- The `change` listener of `apiSelector`, with `value = e.target.value`. -/
def apiSelectorChange (s : State) (value : String) : State :=
  { s with currentApi := value }

/-- Function `aiGuess()` of `drawing.js`, the `click` listener of `guessButton`,
up to the `fetch` call. -/
def aiGuess (s : State) : State :=
  { s with
    loadingHidden := false
    resultArea := .blank
    pending := s.pending ++ [⟨.guessButton, "/api/drawing/doubao/recognize", s.ctx.surface⟩] }

/-- Function `window.aiGuess()` of `api-selector.js`, up to the `fetch` call. -/
def window.aiGuess (s : State) : State :=
  { s with
    loadingHidden := false
    resultArea := .blank
    pending := s.pending ++ [⟨.windowAiGuess, apiUrl s.currentApi, s.ctx.surface⟩] }

/-- A write to the two shared elements. -/
inductive UiOp where
  | hideLoading
  | setResult (view : ResultView)

/-- Perform one write. -/
def UiOp.apply (s : State) : UiOp → State
  | .hideLoading => { s with loadingHidden := true }
  | .setResult view => { s with resultArea := view }

/-- What the `then(data => ...)` callback of `aiGuess` computes for
`resultArea.innerHTML` after it has hidden the indicator. -/
def guessButtonView (data : Json) : Except JsError ResultView := do
  let success ← data.prop "success"
  if truthy success then
    let prediction ← data.prop "prediction"
    let fullContent := jsOr (← data.prop "fullContent") (.str "")
    let formattedContent ← formatContent fullContent
    pure (.described prediction formattedContent)
  else
    pure (.recognitionFailed (jsOr (← data.prop "message") (.str "未知错误")))

/-- What the `then(data => ...)` callback of `window.aiGuess` computes for
`resultArea.innerHTML` after it has hidden the indicator. -/
def windowView (currentApi : String) (data : Json) : Except JsError ResultView := do
  let success ← data.prop "success"
  if truthy success then
    let prediction ← data.prop "prediction"
    let confidence ← data.prop "confidence"
    pure (.rated (apiName currentApi) prediction confidence)
  else
    pure (.recognitionFailed (jsOr (← data.prop "message") (.str "未知错误")))

/-- The `catch(error => ...)` callback of either function. -/
def catchOps (error : JsError) : List UiOp :=
  [.hideLoading, .setResult (.requestFailed error)]

/-- The `then(data => ...)` callback: hide the indicator, then write the view;
a throw while computing the view goes to the `catch` callback. -/
def thenOps (view : Except JsError ResultView) : List UiOp :=
  match view with
  | .ok v => [.hideLoading, .setResult v]
  | .error e => .hideLoading :: catchOps e

/-- The writes made when a request settles, in order. -/
def settleOps (issuer : Issuer) (currentApi : String) : Outcome → List UiOp
  | .rejected error => catchOps error
  | .badBody error => catchOps error
  | .parsed data =>
    match issuer with
    | .guessButton => thenOps (guessButtonView data)
    | .windowAiGuess => thenOps (windowView currentApi data)

/-- Perform writes in order. -/
def applyOps (s : State) (ops : List UiOp) : State :=
  ops.foldl UiOp.apply s

/-- The pending request number `i` settles with outcome `o`. -/
def settle (s : State) (i : Nat) (o : Outcome) : State :=
  match s.pending[i]? with
  | none => s
  | some r =>
    applyOps { s with pending := s.pending.eraseIdx i } (settleOps r.issuer s.currentApi o)

/-! ## Definitions used to state the properties -/

/-- The strokes a sequence of gestures commits under one stroke style. -/
def gesturePaths (color : String) (width : Nat) (gs : List Gesture) : List Path :=
  gs.map fun g => ⟨g.origin :: g.moves, ⟨some color, some width⟩⟩

/-- The surface holds the history's segments followed by those of the open
stroke, the context's stroke style is that of the two inputs, and an open
stroke remembers that style and its last point. -/
structure Inv (s : State) : Prop where
  wf : WellFormed s.paths
  color : s.ctx.strokeStyle = s.colorPicker
  width : s.ctx.lineWidth = s.lineWidth
  surface : s.ctx.surface = historySegs s.paths ++
    (if s.isDrawing then strokeSegs s.ctx.strokeStyle s.ctx.lineWidth s.currentPath else [])
  style : s.isDrawing = true →
    s.currentStyle = ⟨some s.ctx.strokeStyle, some s.ctx.lineWidth⟩
  last : s.isDrawing = true → s.currentPath.getLast? = some ⟨s.lastX, s.lastY⟩

/-- A freshly loaded page: black pen of width 5, the hint in the result area,
the indicator hidden. -/
def page0 : State := init "#000000" 5 .hint true

/-- The segments the `draw` calls of a sequence of gestures paint, stated
directly: for each gesture in order, the segments joining its consecutive
points, in the fixed tool style. -/
def incrementalSegs (color : String) (width : Nat) : List Gesture → List Segment
  | [] => []
  | g :: gs => strokeSegs color width (g.origin :: g.moves) ++ incrementalSegs color width gs

/-- The views written to the result area by a list of writes, in order. -/
def writes : List UiOp → List ResultView
  | [] => []
  | .hideLoading :: ops => writes ops
  | .setResult view :: ops => view :: writes ops

/-! ## Replaying a history -/

theorem strokeSegs_singleton (color : String) (width : Nat) (p : Point) :
    strokeSegs color width [p] = [] := rfl

theorem strokeSegs_short (color : String) (width : Nat) (ps : List Point)
    (h : ps.length ≤ 1) : strokeSegs color width ps = [] := by
  match ps, h with
  | [], _ => rfl
  | [_], _ => rfl

theorem strokeSegs_cons (color : String) (width : Nat) (p q : Point) (ps : List Point) :
    strokeSegs color width (p :: q :: ps) =
      ⟨p.x, p.y, q.x, q.y, color, width⟩ :: strokeSegs color width (q :: ps) := rfl

theorem strokeSegs_snoc (color : String) (width : Nat) (ps : List Point) (l q : Point)
    (h : ps.getLast? = some l) :
    strokeSegs color width (ps ++ [q]) =
      strokeSegs color width ps ++ [⟨l.x, l.y, q.x, q.y, color, width⟩] := by
  induction ps with
  | nil => simp at h
  | cons a t ih =>
    cases t with
    | nil =>
      simp at h
      subst h
      rfl
    | cons b t' =>
      have h' : (b :: t').getLast? = some l := by
        simpa [List.getLast?_cons_cons] using h
      have := ih h'
      simp only [List.cons_append, strokeSegs_cons] at this ⊢
      rw [this]

theorem historySegs_append (ps qs : List Path) :
    historySegs (ps ++ qs) = historySegs ps ++ historySegs qs := by
  induction ps with
  | nil => rfl
  | cons p t ih => simp [historySegs, ih]

theorem WellFormed.nil : WellFormed [] := by
  intro p hp
  simp at hp

theorem WellFormed.append {ps qs : List Path} (hp : WellFormed ps) (hq : WellFormed qs) :
    WellFormed (ps ++ qs) := by
  intro p hmem
  rcases List.mem_append.mp hmem with h | h
  · exact hp p h
  · exact hq p h

theorem WellFormed.dropLast {ps : List Path} (hp : WellFormed ps) : WellFormed ps.dropLast :=
  fun p hmem => hp p (List.dropLast_subset ps hmem)

theorem WellFormed.single (points : List Point) (c : String) (w : Nat) (h : points ≠ []) :
    WellFormed [⟨points, ⟨some c, some w⟩⟩] := by
  intro p hmem
  simp at hmem
  subst hmem
  exact ⟨h, ⟨c, rfl⟩, ⟨w, rfl⟩⟩

/-- The `lineTo` loop of `redrawCanvas` adds the segments joining consecutive
points to the current path and touches nothing else. -/
theorem foldl_lineTo (rest : List Point) (c : Ctx) (q : Point) (h : c.pen = some q) :
    (rest.foldl (fun c p => c.lineTo p.x p.y) c).pathSegs = c.pathSegs ++ (q :: rest).zip rest
    ∧ (rest.foldl (fun c p => c.lineTo p.x p.y) c).surface = c.surface
    ∧ (rest.foldl (fun c p => c.lineTo p.x p.y) c).strokeStyle = c.strokeStyle
    ∧ (rest.foldl (fun c p => c.lineTo p.x p.y) c).lineWidth = c.lineWidth := by
  induction rest generalizing c q with
  | nil => simp
  | cons a t ih =>
    have hpen : (c.lineTo a.x a.y).pen = some a := by
      simp [Ctx.lineTo, h]
    obtain ⟨h1, h2, h3, h4⟩ := ih (c.lineTo a.x a.y) a hpen
    simp only [List.foldl_cons]
    refine ⟨?_, ?_, ?_, ?_⟩
    · rw [h1]
      simp [Ctx.lineTo, h]
    · rw [h2]
      simp [Ctx.lineTo, h]
    · rw [h3]
      simp [Ctx.lineTo, h]
    · rw [h4]
      simp [Ctx.lineTo, h]

/-- One well-formed stroke is replayed without a throw and paints its segments
in its stored style. -/
theorem drawPath_ok (c : Ctx) (p : Path) (hpts : p.points ≠ [])
    (hc : ∃ col, p.style.color = some col) (hw : ∃ w, p.style.width = some w) :
    ∃ c', drawPath c p = .ok c' ∧ c'.surface = c.surface ++ p.segments := by
  obtain ⟨pts, ⟨col, wid⟩⟩ := p
  obtain ⟨col', hcol⟩ := hc
  obtain ⟨w', hwid⟩ := hw
  simp only at hcol hwid hpts
  subst hcol hwid
  cases pts with
  | nil => exact absurd rfl hpts
  | cons p0 rest =>
    refine ⟨_, rfl, ?_⟩
    obtain ⟨h1, h2, h3, h4⟩ := foldl_lineTo rest
      ((((c.setStrokeStyle (some col')).setLineWidth (some w')).beginPath).moveTo p0.x p0.y) p0 rfl
    simp only [Ctx.stroke, h1, h2, h3, h4]
    simp [Ctx.moveTo, Ctx.beginPath, Ctx.setLineWidth, Ctx.setStrokeStyle, Path.segments,
      strokeSegs]

/-- A well-formed history is replayed without a throw and paints its segments
in order after what the surface held. -/
theorem drawPaths_ok (paths : List Path) (c : Ctx) (h : WellFormed paths) :
    ∃ c', drawPaths c paths = .ok c' ∧ c'.surface = c.surface ++ historySegs paths := by
  induction paths generalizing c with
  | nil => exact ⟨c, rfl, by simp [historySegs]⟩
  | cons p t ih =>
    obtain ⟨hp1, hp2, hp3⟩ := h p (List.mem_cons_self p t)
    obtain ⟨c1, e1, s1⟩ := drawPath_ok c p hp1 hp2 hp3
    obtain ⟨c2, e2, s2⟩ := ih c1 (fun q hq => h q (List.mem_cons_of_mem p hq))
    refine ⟨c2, ?_, ?_⟩
    · simp [drawPaths, e1, e2]
    · rw [s2, s1]
      simp [historySegs]

/-- Function `redrawCanvas` on a well-formed history: no throw, the surface
holds exactly the history's segments, the stroke style is that of the two
inputs, and no variable changes. -/
theorem redrawCanvas_ok (s : State) (h : WellFormed s.paths) :
    ∃ c, redrawCanvas s = .ok { s with ctx := c } ∧ c.surface = historySegs s.paths
      ∧ c.strokeStyle = s.colorPicker ∧ c.lineWidth = s.lineWidth := by
  obtain ⟨c1, e1, s1⟩ := drawPaths_ok s.paths s.ctx.clearRect h
  refine ⟨(c1.setStrokeStyle (some s.colorPicker)).setLineWidth (some s.lineWidth), ?_, ?_, ?_, ?_⟩
  · simp [redrawCanvas, e1]
  · simp [Ctx.setLineWidth, Ctx.setStrokeStyle, s1, Ctx.clearRect]
  · simp [Ctx.setLineWidth, Ctx.setStrokeStyle]
  · simp [Ctx.setLineWidth, Ctx.setStrokeStyle]

theorem replayed_ok (s : State) (h : WellFormed s.paths) :
    replayed s = some (historySegs s.paths) := by
  obtain ⟨c, e, hs, _, _⟩ := redrawCanvas_ok s h
  simp [replayed, e, hs]

/-! ## Gestures -/

theorem run_nil (s : State) : run s [] = s := rfl

theorem run_cons (s : State) (e : Event) (es : List Event) :
    run s (e :: es) = run (settled (step s e)) es := rfl

theorem run_append (s : State) (es fs : List Event) :
    run s (es ++ fs) = run (run s es) fs := by
  simp [run, List.foldl_append]

theorem throws_append (s : State) (es fs : List Event) (h : throws s es = false) :
    throws s (es ++ fs) = throws (run s es) fs := by
  induction es generalizing s with
  | nil => rfl
  | cons e t ih =>
    simp only [throws, List.cons_append, run_cons] at h ⊢
    cases hstep : step s e with
    | error s' => simp [hstep] at h
    | ok s' =>
      simp only [hstep] at h
      simpa [settled] using ih s' h

/-- What one `draw` does to an open stroke. -/
theorem draw_open (s : State) (a : Point) (h : s.isDrawing = true) :
    (draw s a).isDrawing = true ∧ (draw s a).lastX = a.x ∧ (draw s a).lastY = a.y
    ∧ (draw s a).paths = s.paths ∧ (draw s a).currentPath = s.currentPath ++ [a]
    ∧ (draw s a).currentStyle = s.currentStyle
    ∧ (draw s a).ctx.surface = s.ctx.surface ++
        [⟨s.lastX, s.lastY, a.x, a.y, s.ctx.strokeStyle, s.ctx.lineWidth⟩]
    ∧ (draw s a).ctx.strokeStyle = s.ctx.strokeStyle
    ∧ (draw s a).ctx.lineWidth = s.ctx.lineWidth
    ∧ (draw s a).colorPicker = s.colorPicker ∧ (draw s a).lineWidth = s.lineWidth := by
  simp [draw, h, Ctx.stroke, Ctx.lineTo, Ctx.moveTo, Ctx.beginPath]

/-- The `draw` calls of a gesture extend the open stroke point by point and
paint the joining segments in the current stroke style. -/
theorem run_draws (moves : List Point) (s : State) (h : s.isDrawing = true) :
    (run s (moves.map .draw)).isDrawing = true
    ∧ (run s (moves.map .draw)).paths = s.paths
    ∧ (run s (moves.map .draw)).currentPath = s.currentPath ++ moves
    ∧ (run s (moves.map .draw)).currentStyle = s.currentStyle
    ∧ (run s (moves.map .draw)).ctx.surface = s.ctx.surface ++
        strokeSegs s.ctx.strokeStyle s.ctx.lineWidth (⟨s.lastX, s.lastY⟩ :: moves)
    ∧ (run s (moves.map .draw)).ctx.strokeStyle = s.ctx.strokeStyle
    ∧ (run s (moves.map .draw)).ctx.lineWidth = s.ctx.lineWidth
    ∧ (run s (moves.map .draw)).colorPicker = s.colorPicker
    ∧ (run s (moves.map .draw)).lineWidth = s.lineWidth
    ∧ throws s (moves.map .draw) = false := by
  induction moves generalizing s with
  | nil => simp [run_nil, strokeSegs_singleton, throws, h]
  | cons a t ih =>
    obtain ⟨d1, d2, d3, d4, d5, d6, d7, d8, d9, d10, d11⟩ := draw_open s a h
    obtain ⟨i1, i2, i3, i4, i5, i6, i7, i8, i9, i10⟩ := ih (draw s a) d1
    have hrun : run s ((a :: t).map .draw) = run (draw s a) (t.map .draw) := rfl
    have hthr : throws s ((a :: t).map .draw) = throws (draw s a) (t.map .draw) := rfl
    rw [hrun, hthr]
    refine ⟨i1, i2.trans d4, ?_, i4.trans d6, ?_, i6.trans d8, i7.trans d9, i8.trans d10,
      i9.trans d11, i10⟩
    · rw [i3, d5]
      simp
    · rw [i5, d7, d8, d9, d2, d3, strokeSegs_cons]
      simp

/-- A complete gesture commits exactly one stroke: its points in order, in the
stroke style the context had at `startDrawing`; the surface gains the joining
segments in that style. -/
theorem run_gesture (g : Gesture) (s : State) :
    (run s g.events).isDrawing = false
    ∧ (run s g.events).paths = s.paths ++
        [⟨g.origin :: g.moves, ⟨some s.ctx.strokeStyle, some s.ctx.lineWidth⟩⟩]
    ∧ (run s g.events).ctx.surface = s.ctx.surface ++
        strokeSegs s.ctx.strokeStyle s.ctx.lineWidth (g.origin :: g.moves)
    ∧ (run s g.events).ctx.strokeStyle = s.ctx.strokeStyle
    ∧ (run s g.events).ctx.lineWidth = s.ctx.lineWidth
    ∧ (run s g.events).colorPicker = s.colorPicker
    ∧ (run s g.events).lineWidth = s.lineWidth
    ∧ throws s g.events = false := by
  have hopen : (startDrawing s g.origin).isDrawing = true := rfl
  obtain ⟨i1, i2, i3, i4, i5, i6, i7, i8, i9, i10⟩ :=
    run_draws g.moves (startDrawing s g.origin) hopen
  have hrun : run s g.events =
      stopDrawing (run (startDrawing s g.origin) (g.moves.map .draw)) := by
    simp [Gesture.events, run_cons, run_append, step, settled, run_nil]
  have hthr : throws s g.events = false := by
    have : throws s g.events =
        throws (startDrawing s g.origin) (g.moves.map .draw ++ [.stopDrawing]) := rfl
    rw [this, throws_append _ _ _ i10]
    rfl
  have hlen : (run (startDrawing s g.origin) (g.moves.map .draw)).currentPath.length > 0 := by
    rw [i3]
    simp [startDrawing]
  rw [hrun]
  refine ⟨?_, ?_, ?_, ?_, ?_, ?_, ?_, hthr⟩
  · simp [stopDrawing, i1, hlen]
  · simp only [stopDrawing, i1, hlen, if_true, i2, i3, i4]
    simp [startDrawing]
  · simp only [stopDrawing, i1, hlen, if_true, i5]
    simp [startDrawing]
  · simp only [stopDrawing, i1, hlen, if_true, i6]
    simp [startDrawing]
  · simp only [stopDrawing, i1, hlen, if_true, i7]
    simp [startDrawing]
  · simp only [stopDrawing, i1, hlen, if_true, i8]
    simp [startDrawing]
  · simp only [stopDrawing, i1, hlen, if_true, i9]
    simp [startDrawing]

theorem gesturePaths_wellFormed (color : String) (width : Nat) (gs : List Gesture) :
    WellFormed (gesturePaths color width gs) := by
  intro p hp
  simp only [gesturePaths, List.mem_map] at hp
  obtain ⟨g, _, rfl⟩ := hp
  exact ⟨by simp, ⟨color, rfl⟩, ⟨width, rfl⟩⟩

/-- A sequence of complete gestures appends one stroke per gesture to the
history and the segments of these strokes to the surface. -/
theorem run_gestures (gs : List Gesture) (s : State) :
    (run s (gestureEvents gs)).paths =
      s.paths ++ gesturePaths s.ctx.strokeStyle s.ctx.lineWidth gs
    ∧ (run s (gestureEvents gs)).ctx.surface = s.ctx.surface ++
        historySegs (gesturePaths s.ctx.strokeStyle s.ctx.lineWidth gs)
    ∧ (run s (gestureEvents gs)).ctx.strokeStyle = s.ctx.strokeStyle
    ∧ (run s (gestureEvents gs)).ctx.lineWidth = s.ctx.lineWidth
    ∧ (run s (gestureEvents gs)).colorPicker = s.colorPicker
    ∧ (run s (gestureEvents gs)).lineWidth = s.lineWidth
    ∧ throws s (gestureEvents gs) = false := by
  induction gs generalizing s with
  | nil => simp [gestureEvents, run_nil, gesturePaths, historySegs, throws]
  | cons g t ih =>
    obtain ⟨_, g2, g3, g4, g5, g6, g7, g8⟩ := run_gesture g s
    obtain ⟨i1, i2, i3, i4, i5, i6, i7⟩ := ih (run s g.events)
    simp only [gestureEvents, run_append]
    refine ⟨?_, ?_, i3.trans g4, i4.trans g5, i5.trans g6, i6.trans g7, ?_⟩
    · rw [i1, g2, g4, g5]
      simp [gesturePaths]
    · rw [i2, g3, g4, g5]
      simp [gesturePaths, historySegs, Path.segments]
    · rw [throws_append _ _ _ g8]
      exact i7

/-! ## Undo -/

/-- Function `undoLastPath` on a history `H ++ [x]` with `H` well formed: the
last stroke is removed and the surface is repainted from `H`. -/
theorem undoLastPath_ok (s : State) (H : List Path) (x : Path) (hp : s.paths = H ++ [x])
    (hwf : WellFormed H) :
    ∃ c, undoLastPath s = .ok { s with paths := H, ctx := c } ∧ c.surface = historySegs H
      ∧ c.strokeStyle = s.colorPicker ∧ c.lineWidth = s.lineWidth := by
  have hlen : s.paths.length > 0 := by
    rw [hp]
    simp
  have hdrop : s.paths.dropLast = H := by
    rw [hp]
    simp
  obtain ⟨c, e, h1, h2, h3⟩ := redrawCanvas_ok { s with paths := H } hwf
  refine ⟨c, ?_, h1, h2, h3⟩
  simp only [undoLastPath, hlen, if_true, hdrop]
  exact e

/-- As many `undoLastPath` calls as there are strokes above `H` bring the
history back to `H`, repaint the surface from `H`, and none of them throws. -/
theorem run_undos (extra : List Path) (H : List Path) (s : State)
    (hp : s.paths = H ++ extra) (hwf : WellFormed (H ++ extra)) :
    (run s (List.replicate extra.length .undoLastPath)).paths = H
    ∧ (extra ≠ [] →
        (run s (List.replicate extra.length .undoLastPath)).ctx.surface = historySegs H)
    ∧ throws s (List.replicate extra.length .undoLastPath) = false := by
  induction extra using List.reverseRecOn generalizing s with
  | nil => simp [run_nil, hp, throws]
  | append_singleton t x ih =>
    have hwf' : WellFormed (H ++ t) := fun p hmem =>
      hwf p (by
        rw [← List.append_assoc]
        exact List.mem_append_left _ hmem)
    have hp' : s.paths = (H ++ t) ++ [x] := by
      rw [hp, List.append_assoc]
    obtain ⟨c, e, h1, _, _⟩ := undoLastPath_ok s (H ++ t) x hp' hwf'
    have hlen : (t ++ [x]).length = t.length + 1 := by simp
    obtain ⟨i1, i2, i3⟩ := ih { s with paths := H ++ t, ctx := c } rfl hwf'
    rw [hlen, List.replicate_succ]
    simp only [run_cons, throws, step, e, settled]
    refine ⟨i1, fun _ => ?_, i3⟩
    by_cases ht : t = []
    · subst ht
      simpa [run_nil] using h1
    · exact i2 ht

/-! ## The canvas shows the history -/

theorem Inv.init (color : String) (width : Nat) (result : ResultView) (hidden : Bool) :
    Inv (init color width result hidden) where
  wf := WellFormed.nil
  color := rfl
  width := rfl
  surface := rfl
  style := fun h => by simp [GuessAndDraw.init] at h
  last := fun h => by simp [GuessAndDraw.init] at h

theorem Inv.surface_of_quiet {s : State} (h : Inv s) (hq : quiet s = true) :
    s.ctx.surface = historySegs s.paths := by
  have hs := h.surface
  cases hd : s.isDrawing with
  | false => simpa [hd] using hs
  | true =>
    have hlen : s.currentPath.length ≤ 1 := by
      simpa [quiet, hd] using hq
    simpa [hd, strokeSegs_short _ _ _ hlen] using hs

theorem Inv.startDrawing {s : State} (h : Inv s) (hq : quiet s = true) (pos : Point) :
    Inv (startDrawing s pos) where
  wf := h.wf
  color := h.color
  width := h.width
  surface := by
    simp only [GuessAndDraw.startDrawing, if_true, strokeSegs_singleton, List.append_nil]
    exact h.surface_of_quiet hq
  style := fun _ => rfl
  last := fun _ => rfl

theorem Inv.draw {s : State} (h : Inv s) (pos : Point) : Inv (draw s pos) := by
  cases hd : s.isDrawing with
  | false =>
    have : GuessAndDraw.draw s pos = s := by simp [GuessAndDraw.draw, hd]
    rw [this]
    exact h
  | true =>
    obtain ⟨d1, d2, d3, d4, d5, d6, d7, d8, d9, d10, d11⟩ := draw_open s pos hd
    refine ⟨?_, ?_, ?_, ?_, ?_, ?_⟩
    · rw [d4]
      exact h.wf
    · rw [d8, d10]
      exact h.color
    · rw [d9, d11]
      exact h.width
    · rw [d7, d4, d1, d5, d8, d9, h.surface, hd,
        strokeSegs_snoc _ _ _ _ pos (h.last hd)]
      simp
    · intro _
      rw [d6, d8, d9]
      exact h.style hd
    · intro _
      rw [d5, d2, d3]
      simp

theorem Inv.stopDrawing {s : State} (h : Inv s) : Inv (stopDrawing s) := by
  cases hd : s.isDrawing with
  | false =>
    have : GuessAndDraw.stopDrawing s = s := by simp [GuessAndDraw.stopDrawing, hd]
    rw [this]
    exact h
  | true =>
    have hne : s.currentPath ≠ [] := by
      intro hnil
      have := h.last hd
      simp [hnil] at this
    have hlen : s.currentPath.length > 0 := List.length_pos.mpr hne
    have hst : GuessAndDraw.stopDrawing s =
        { s with isDrawing := false, paths := s.paths ++ [⟨s.currentPath, s.currentStyle⟩] } := by
      simp [GuessAndDraw.stopDrawing, hd, hlen]
    rw [hst]
    refine ⟨?_, h.color, h.width, ?_, ?_, ?_⟩
    · apply WellFormed.append h.wf
      rw [h.style hd]
      exact WellFormed.single _ _ _ hne
    · have hs := h.surface
      simp only [hd, if_true] at hs
      simp [historySegs_append, historySegs, Path.segments, h.style hd, hs]
    · intro hc
      simp at hc
    · intro hc
      simp at hc

theorem Inv.clearCanvas {s : State} (h : Inv s) (hq : quiet s = true) :
    Inv (clearCanvas s) := by
  refine ⟨WellFormed.nil, h.color, h.width, ?_, h.style, h.last⟩
  cases hd : s.isDrawing with
  | false => simp [GuessAndDraw.clearCanvas, Ctx.clearRect, historySegs, hd]
  | true =>
    have hlen : s.currentPath.length ≤ 1 := by
      simpa [quiet, hd] using hq
    simp [GuessAndDraw.clearCanvas, Ctx.clearRect, historySegs, hd,
      strokeSegs_short _ _ _ hlen]

theorem Inv.undoLastPath {s : State} (h : Inv s) (hq : quiet s = true) :
    ∃ s', undoLastPath s = .ok s' ∧ Inv s' := by
  rcases List.eq_nil_or_concat s.paths with hnil | ⟨H, x, hcat⟩
  · refine ⟨s, ?_, h⟩
    simp [GuessAndDraw.undoLastPath, hnil]
  · have hcat' : s.paths = H ++ [x] := by
      rw [hcat, List.concat_eq_append]
    have hwf : WellFormed H := fun p hmem =>
      h.wf p (by
        rw [hcat']
        exact List.mem_append_left _ hmem)
    obtain ⟨c, e, h1, h2, h3⟩ := undoLastPath_ok s H x hcat' hwf
    refine ⟨_, e, ⟨hwf, h2, h3, ?_, ?_, h.last⟩⟩
    · cases hd : s.isDrawing with
      | false => simp [h1, hd]
      | true =>
        have hlen : s.currentPath.length ≤ 1 := by
          simpa [quiet, hd] using hq
        simp [h1, hd, strokeSegs_short _ _ _ hlen]
    · intro hd
      simp only at hd ⊢
      rw [h2, h3, ← h.color, ← h.width]
      exact h.style hd

/-- A disciplined sequence of drawing calls keeps the invariant, and none of
its listeners throws. -/
theorem Inv.run {s : State} (h : Inv s) (es : List Event) (hd : disciplined s es = true) :
    Inv (run s es) ∧ throws s es = false := by
  induction es generalizing s with
  | nil => exact ⟨h, rfl⟩
  | cons e t ih =>
    simp only [disciplined, Bool.and_eq_true] at hd
    obtain ⟨hallow, hrest⟩ := hd
    cases e with
    | startDrawing pos =>
      simp only [step, settled] at hrest
      simpa [run_cons, throws, step, settled] using ih (h.startDrawing hallow pos) hrest
    | draw pos =>
      simp only [step, settled] at hrest
      simpa [run_cons, throws, step, settled] using ih (h.draw pos) hrest
    | stopDrawing =>
      simp only [step, settled] at hrest
      simpa [run_cons, throws, step, settled] using ih h.stopDrawing hrest
    | clearCanvas =>
      simp only [step, settled] at hrest
      simpa [run_cons, throws, step, settled] using ih (h.clearCanvas hallow) hrest
    | undoLastPath =>
      obtain ⟨s', e, hinv⟩ := h.undoLastPath hallow
      simp only [step, e, settled] at hrest
      simpa [run_cons, throws, step, settled, e] using ih hinv hrest
    | pickColor v => simp at hallow
    | updateColor => simp at hallow
    | pickLineWidth v => simp at hallow
    | updateLineWidth => simp at hallow

/-! ## Strokes always have a point -/

/-- A history whose strokes all have a point is replayed without a throw. -/
theorem drawPaths_total (paths : List Path) (c : Ctx) (h : ∀ p ∈ paths, p.points ≠ []) :
    ∃ c', drawPaths c paths = .ok c' := by
  induction paths generalizing c with
  | nil => exact ⟨c, rfl⟩
  | cons p t ih =>
    have hp := h p (List.mem_cons_self p t)
    obtain ⟨pts, sty⟩ := p
    cases pts with
    | nil => exact absurd rfl hp
    | cons p0 rest =>
      obtain ⟨c2, e2⟩ := ih
        ((rest.foldl (fun c p => c.lineTo p.x p.y)
          ((((c.setStrokeStyle sty.color).setLineWidth sty.width).beginPath).moveTo
            p0.x p0.y)).stroke)
        (fun q hq => h q (List.mem_cons_of_mem _ hq))
      exact ⟨c2, by simpa [drawPaths, drawPath] using e2⟩

theorem redrawCanvas_total (s : State) (h : ∀ p ∈ s.paths, p.points ≠ []) :
    ∃ s', redrawCanvas s = .ok s' ∧ s'.paths = s.paths := by
  obtain ⟨c, e⟩ := drawPaths_total s.paths s.ctx.clearRect h
  exact ⟨{ s with ctx := (c.setStrokeStyle (some s.colorPicker)).setLineWidth (some s.lineWidth) },
    by simp only [redrawCanvas, e], rfl⟩

/-- Every listener keeps the strokes of the history non-empty and does not
throw in such a state. -/
theorem step_nonempty (s : State) (e : Event) (h : ∀ p ∈ s.paths, p.points ≠ []) :
    ∃ s', step s e = .ok s' ∧ ∀ p ∈ s'.paths, p.points ≠ [] := by
  cases e with
  | startDrawing pos => exact ⟨_, rfl, h⟩
  | draw pos =>
    refine ⟨_, rfl, ?_⟩
    cases hd : s.isDrawing with
    | false => simpa [draw, hd] using h
    | true => simpa [draw, hd] using h
  | stopDrawing =>
    refine ⟨_, rfl, ?_⟩
    cases hd : s.isDrawing with
    | false => simpa [stopDrawing, hd] using h
    | true =>
      by_cases hlen : s.currentPath.length > 0
      · intro p hp
        simp only [stopDrawing, hd, hlen, if_true, List.mem_append, List.mem_singleton] at hp
        rcases hp with hp | hp
        · exact h p hp
        · subst hp
          exact List.length_pos.mp hlen
      · simpa [stopDrawing, hd, hlen] using h
  | clearCanvas =>
    refine ⟨_, rfl, ?_⟩
    intro p hp
    simp [clearCanvas] at hp
  | undoLastPath =>
    by_cases hlen : s.paths.length > 0
    · have hdrop : ∀ p ∈ s.paths.dropLast, p.points ≠ [] :=
        fun p hp => h p (List.dropLast_subset _ hp)
      obtain ⟨s', e, hpaths⟩ := redrawCanvas_total { s with paths := s.paths.dropLast } hdrop
      refine ⟨s', by simpa [step, undoLastPath, hlen] using e, ?_⟩
      rw [hpaths]
      exact hdrop
    · exact ⟨s, by simp [step, undoLastPath, hlen], h⟩
  | pickColor v => exact ⟨_, rfl, h⟩
  | updateColor => exact ⟨_, rfl, h⟩
  | pickLineWidth v => exact ⟨_, rfl, h⟩
  | updateLineWidth => exact ⟨_, rfl, h⟩

theorem run_nonempty (es : List Event) (s : State) (h : ∀ p ∈ s.paths, p.points ≠ []) :
    (∀ p ∈ (run s es).paths, p.points ≠ []) ∧ throws s es = false := by
  induction es generalizing s with
  | nil => exact ⟨h, rfl⟩
  | cons e t ih =>
    obtain ⟨s', hs, hne⟩ := step_nonempty s e h
    simpa [run_cons, throws, hs, settled] using ih s' hne

/-! ## Claims about drawing, undo and replay -/

theorem historySegs_gesturePaths (color : String) (width : Nat) (gs : List Gesture) :
    historySegs (gesturePaths color width gs) = incrementalSegs color width gs := by
  induction gs with
  | nil => rfl
  | cons g t ih =>
    have : gesturePaths color width (g :: t) =
        ⟨g.origin :: g.moves, ⟨some color, some width⟩⟩ :: gesturePaths color width t := rfl
    rw [this, historySegs, ih]
    rfl

/-- C1, as stated, fails: a `clearCanvas`, an `undoLastPath` or a second
`startDrawing` that arrives while a stroke with a painted segment is open
leaves, after the stroke is closed, a canvas that differs from the replay of
`paths`. -/
theorem C1_canvas_differs_from_replay :
    ((run page0 [.startDrawing ⟨0, 0⟩, .draw ⟨1, 1⟩, .clearCanvas, .stopDrawing]).isDrawing = false
      ∧ (run page0 [.startDrawing ⟨0, 0⟩, .draw ⟨1, 1⟩, .clearCanvas, .stopDrawing]).ctx.surface
          = []
      ∧ replayed (run page0 [.startDrawing ⟨0, 0⟩, .draw ⟨1, 1⟩, .clearCanvas, .stopDrawing])
          = some [⟨0, 0, 1, 1, "#000000", 5⟩])
    ∧ ((run page0 [.startDrawing ⟨0, 0⟩, .draw ⟨1, 1⟩, .stopDrawing, .startDrawing ⟨2, 2⟩,
          .draw ⟨3, 3⟩, .undoLastPath, .stopDrawing]).isDrawing = false
      ∧ (run page0 [.startDrawing ⟨0, 0⟩, .draw ⟨1, 1⟩, .stopDrawing, .startDrawing ⟨2, 2⟩,
          .draw ⟨3, 3⟩, .undoLastPath, .stopDrawing]).ctx.surface = []
      ∧ replayed (run page0 [.startDrawing ⟨0, 0⟩, .draw ⟨1, 1⟩, .stopDrawing,
          .startDrawing ⟨2, 2⟩, .draw ⟨3, 3⟩, .undoLastPath, .stopDrawing])
          = some [⟨2, 2, 3, 3, "#000000", 5⟩])
    ∧ ((run page0 [.startDrawing ⟨0, 0⟩, .draw ⟨1, 1⟩, .startDrawing ⟨2, 2⟩,
          .stopDrawing]).isDrawing = false
      ∧ (run page0 [.startDrawing ⟨0, 0⟩, .draw ⟨1, 1⟩, .startDrawing ⟨2, 2⟩,
          .stopDrawing]).ctx.surface = [⟨0, 0, 1, 1, "#000000", 5⟩]
      ∧ replayed (run page0 [.startDrawing ⟨0, 0⟩, .draw ⟨1, 1⟩, .startDrawing ⟨2, 2⟩,
          .stopDrawing]) = some []) := by
  decide

/-- C1, amended: from the initial empty canvas, after any sequence of the five
drawing calls in which `startDrawing`, `undoLastPath` and `clearCanvas` come
only while no stroke is open or the open stroke is still its origin point
alone, whenever no stroke is open the canvas holds exactly what `redrawCanvas`
paints from `paths`; no call of the sequence throws. -/
theorem C1_canvas_equals_replay (color : String) (width : Nat) (result : ResultView)
    (hidden : Bool) (es : List Event)
    (hd : disciplined (init color width result hidden) es = true)
    (hidle : (run (init color width result hidden) es).isDrawing = false) :
    replayed (run (init color width result hidden) es)
      = some (run (init color width result hidden) es).ctx.surface
    ∧ throws (init color width result hidden) es = false := by
  obtain ⟨hinv, hthr⟩ := (Inv.init color width result hidden).run es hd
  refine ⟨?_, hthr⟩
  rw [replayed_ok _ hinv.wf, hinv.surface, hidle]
  simp

/-- C1, amended, at a sequence with an undo inside a stroke that has only its
origin, a repeated `stopDrawing`, a tap and a final undo. -/
theorem C1_canvas_equals_replay_witness :
    disciplined page0 [.startDrawing ⟨0, 0⟩, .draw ⟨1, 1⟩, .draw ⟨2, 1⟩, .stopDrawing,
        .startDrawing ⟨4, 4⟩, .undoLastPath, .draw ⟨5, 5⟩, .stopDrawing, .stopDrawing,
        .startDrawing ⟨7, 7⟩, .stopDrawing, .undoLastPath] = true
    ∧ (run page0 [.startDrawing ⟨0, 0⟩, .draw ⟨1, 1⟩, .draw ⟨2, 1⟩, .stopDrawing,
        .startDrawing ⟨4, 4⟩, .undoLastPath, .draw ⟨5, 5⟩, .stopDrawing, .stopDrawing,
        .startDrawing ⟨7, 7⟩, .stopDrawing, .undoLastPath]).isDrawing = false
    ∧ (replayed (run page0 [.startDrawing ⟨0, 0⟩, .draw ⟨1, 1⟩, .draw ⟨2, 1⟩, .stopDrawing,
        .startDrawing ⟨4, 4⟩, .undoLastPath, .draw ⟨5, 5⟩, .stopDrawing, .stopDrawing,
        .startDrawing ⟨7, 7⟩, .stopDrawing, .undoLastPath])
      = some (run page0 [.startDrawing ⟨0, 0⟩, .draw ⟨1, 1⟩, .draw ⟨2, 1⟩, .stopDrawing,
        .startDrawing ⟨4, 4⟩, .undoLastPath, .draw ⟨5, 5⟩, .stopDrawing, .stopDrawing,
        .startDrawing ⟨7, 7⟩, .stopDrawing, .undoLastPath]).ctx.surface
      ∧ throws page0 [.startDrawing ⟨0, 0⟩, .draw ⟨1, 1⟩, .draw ⟨2, 1⟩, .stopDrawing,
        .startDrawing ⟨4, 4⟩, .undoLastPath, .draw ⟨5, 5⟩, .stopDrawing, .stopDrawing,
        .startDrawing ⟨7, 7⟩, .stopDrawing, .undoLastPath] = false) :=
  ⟨by decide, by decide,
    C1_canvas_equals_replay "#000000" 5 .hint true _ (by decide) (by decide)⟩

/-- C2: from any state whose history `H` is well formed, after the calls of
`gs.length` complete gestures, that many `undoLastPath` calls leave `paths`
equal to `H` and the canvas equal to the replay of `H` (for no gesture at all
the canvas is the one the state had, so it must have shown `H` before); the
gestures commit one stroke each and no call throws. On an empty history
`undoLastPath` returns the state as it was. -/
theorem C2_undo_restores (s : State) (gs : List Gesture) (hwf : WellFormed s.paths)
    (hcan : gs = [] → replayed s = some s.ctx.surface) :
    (run s (gestureEvents gs)).paths.length = s.paths.length + gs.length
    ∧ throws s (gestureEvents gs ++ List.replicate gs.length .undoLastPath) = false
    ∧ (run s (gestureEvents gs ++ List.replicate gs.length .undoLastPath)).paths = s.paths
    ∧ (run s (gestureEvents gs ++ List.replicate gs.length .undoLastPath)).ctx.surface
        = historySegs s.paths
    ∧ replayed (run s (gestureEvents gs ++ List.replicate gs.length .undoLastPath))
        = some (run s (gestureEvents gs ++ List.replicate gs.length .undoLastPath)).ctx.surface
    ∧ undoLastPath { s with paths := [] } = .ok { s with paths := [] } := by
  obtain ⟨g1, _, _, _, _, _, g7⟩ := run_gestures gs s
  have hlen : (gesturePaths s.ctx.strokeStyle s.ctx.lineWidth gs).length = gs.length := by
    simp [gesturePaths]
  have hwf' : WellFormed (s.paths ++ gesturePaths s.ctx.strokeStyle s.ctx.lineWidth gs) :=
    hwf.append (gesturePaths_wellFormed _ _ gs)
  obtain ⟨u1, u2, u3⟩ := run_undos (gesturePaths s.ctx.strokeStyle s.ctx.lineWidth gs)
    s.paths (run s (gestureEvents gs)) g1 hwf'
  rw [hlen] at u1 u2 u3
  have hsurf : (run s (gestureEvents gs ++ List.replicate gs.length .undoLastPath)).ctx.surface
      = historySegs s.paths := by
    rw [run_append]
    cases gs with
    | nil =>
      have h0 := hcan rfl
      rw [replayed_ok s hwf] at h0
      simpa [gestureEvents, run_nil] using (Option.some.inj h0).symm
    | cons g t => exact u2 (by simp [gesturePaths])
  have hpaths : (run s (gestureEvents gs ++ List.replicate gs.length .undoLastPath)).paths
      = s.paths := by
    rw [run_append]
    exact u1
  refine ⟨?_, ?_, hpaths, hsurf, ?_, ?_⟩
  · rw [g1, List.length_append, hlen]
  · rw [throws_append _ _ _ g7]
    exact u3
  · rw [replayed_ok _ (by rw [hpaths]; exact hwf), hpaths, hsurf]
  · simp [undoLastPath]

/-- C2 on a history of one stroke: two gestures and two undos, and no gesture
and no undo. -/
theorem C2_undo_restores_witness :
    WellFormed (run page0 [.startDrawing ⟨0, 0⟩, .draw ⟨1, 1⟩, .stopDrawing]).paths
    ∧ replayed (run page0 [.startDrawing ⟨0, 0⟩, .draw ⟨1, 1⟩, .stopDrawing])
        = some (run page0 [.startDrawing ⟨0, 0⟩, .draw ⟨1, 1⟩, .stopDrawing]).ctx.surface
    ∧ (run (run page0 [.startDrawing ⟨0, 0⟩, .draw ⟨1, 1⟩, .stopDrawing])
        (gestureEvents [⟨⟨2, 2⟩, [⟨3, 3⟩, ⟨4, 3⟩]⟩, ⟨⟨6, 6⟩, []⟩]
          ++ List.replicate 2 .undoLastPath)).paths
        = (run page0 [.startDrawing ⟨0, 0⟩, .draw ⟨1, 1⟩, .stopDrawing]).paths
    ∧ (run (run page0 [.startDrawing ⟨0, 0⟩, .draw ⟨1, 1⟩, .stopDrawing])
        (gestureEvents [⟨⟨2, 2⟩, [⟨3, 3⟩, ⟨4, 3⟩]⟩, ⟨⟨6, 6⟩, []⟩]
          ++ List.replicate 2 .undoLastPath)).ctx.surface
        = historySegs (run page0 [.startDrawing ⟨0, 0⟩, .draw ⟨1, 1⟩, .stopDrawing]).paths
    ∧ (run (run page0 [.startDrawing ⟨0, 0⟩, .draw ⟨1, 1⟩, .stopDrawing])
        (gestureEvents [] ++ List.replicate 0 .undoLastPath)).ctx.surface
        = historySegs (run page0 [.startDrawing ⟨0, 0⟩, .draw ⟨1, 1⟩, .stopDrawing]).paths :=
  have hwf : WellFormed (run page0 [.startDrawing ⟨0, 0⟩, .draw ⟨1, 1⟩, .stopDrawing]).paths :=
    WellFormed.single [⟨0, 0⟩, ⟨1, 1⟩] "#000000" 5 (by decide)
  have hcan : replayed (run page0 [.startDrawing ⟨0, 0⟩, .draw ⟨1, 1⟩, .stopDrawing])
      = some (run page0 [.startDrawing ⟨0, 0⟩, .draw ⟨1, 1⟩, .stopDrawing]).ctx.surface := by
    decide
  have h2 := C2_undo_restores (run page0 [.startDrawing ⟨0, 0⟩, .draw ⟨1, 1⟩, .stopDrawing])
    [⟨⟨2, 2⟩, [⟨3, 3⟩, ⟨4, 3⟩]⟩, ⟨⟨6, 6⟩, []⟩] hwf (fun _ => hcan)
  have h0 := C2_undo_restores (run page0 [.startDrawing ⟨0, 0⟩, .draw ⟨1, 1⟩, .stopDrawing])
    [] hwf (fun _ => hcan)
  ⟨hwf, hcan, h2.2.2.1, h2.2.2.2.1, h0.2.2.2.1⟩

/-- C3: from the empty canvas and the empty history, with the tool style fixed,
after the calls of any sequence of complete gestures the surface holds the
segments the `draw` calls painted (for each gesture in order, the segments
joining its consecutive points, in the tool style), and `redrawCanvas` paints
from `paths` exactly these segments, in this order and style. -/
theorem C3_replay_fidelity (color : String) (width : Nat) (result : ResultView)
    (hidden : Bool) (gs : List Gesture) :
    (run (init color width result hidden) (gestureEvents gs)).ctx.surface
      = incrementalSegs color width gs
    ∧ replayed (run (init color width result hidden) (gestureEvents gs))
      = some (incrementalSegs color width gs)
    ∧ throws (init color width result hidden) (gestureEvents gs) = false := by
  obtain ⟨g1, g2, _, _, _, _, g7⟩ := run_gestures gs (init color width result hidden)
  have hpaths : (run (init color width result hidden) (gestureEvents gs)).paths
      = gesturePaths color width gs := by
    rw [g1]
    rfl
  refine ⟨?_, ?_, g7⟩
  · rw [g2]
    show [] ++ historySegs (gesturePaths color width gs) = _
    rw [List.nil_append, historySegs_gesturePaths]
  · rw [replayed_ok _ (by rw [hpaths]; exact gesturePaths_wellFormed _ _ gs), hpaths,
      historySegs_gesturePaths]

/-- C8, as stated, fails: a second `startDrawing` on an open stroke replaces the
recorded points and moves the cursor, and the following `stopDrawing` commits
only the new point. -/
theorem C8_startDrawing_not_noop :
    (run page0 [.startDrawing ⟨0, 0⟩, .draw ⟨1, 1⟩]).isDrawing = true
    ∧ (run page0 [.startDrawing ⟨0, 0⟩, .draw ⟨1, 1⟩]).currentPath = [⟨0, 0⟩, ⟨1, 1⟩]
    ∧ (startDrawing (run page0 [.startDrawing ⟨0, 0⟩, .draw ⟨1, 1⟩]) ⟨5, 5⟩).currentPath
        = [⟨5, 5⟩]
    ∧ (startDrawing (run page0 [.startDrawing ⟨0, 0⟩, .draw ⟨1, 1⟩]) ⟨5, 5⟩).lastX = 5
    ∧ (run page0 [.startDrawing ⟨0, 0⟩, .draw ⟨1, 1⟩]).lastX = 1
    ∧ (stopDrawing (startDrawing (run page0 [.startDrawing ⟨0, 0⟩, .draw ⟨1, 1⟩]) ⟨5, 5⟩)).paths
        = [⟨[⟨5, 5⟩], ⟨some "#000000", some 5⟩⟩]
    ∧ (stopDrawing (run page0 [.startDrawing ⟨0, 0⟩, .draw ⟨1, 1⟩])).paths
        = [⟨[⟨0, 0⟩, ⟨1, 1⟩], ⟨some "#000000", some 5⟩⟩] := by
  decide

/-- C8, amended: in every state, with a stroke open or not, `startDrawing`
begins a stroke anew: `isDrawing` is true, the recorded points are the new
position alone, the cursor is there, the style is read again from the canvas
context, and the history and the canvas are unchanged; the following `draw`
calls and `stopDrawing` commit one stroke holding only the points recorded
since this call. -/
theorem C8_startDrawing_restarts (s : State) (pos : Point) (moves : List Point) :
    (startDrawing s pos).isDrawing = true
    ∧ (startDrawing s pos).currentPath = [pos]
    ∧ (startDrawing s pos).lastX = pos.x ∧ (startDrawing s pos).lastY = pos.y
    ∧ (startDrawing s pos).currentStyle = ⟨some s.ctx.strokeStyle, some s.ctx.lineWidth⟩
    ∧ (startDrawing s pos).paths = s.paths
    ∧ (startDrawing s pos).ctx = s.ctx
    ∧ (run (startDrawing s pos) (moves.map .draw ++ [.stopDrawing])).paths
        = s.paths ++ [⟨pos :: moves, ⟨some s.ctx.strokeStyle, some s.ctx.lineWidth⟩⟩] := by
  refine ⟨rfl, rfl, rfl, rfl, rfl, rfl, rfl, ?_⟩
  exact (run_gesture ⟨pos, moves⟩ s).2.1

/-- C9 at a failing input: the colour changes from black to red between two
`draw` calls of one stroke. The segment painted after the change is red on the
canvas, the stroke is committed as black, and `redrawCanvas` paints the same
segment black. -/
theorem C9_style_change_mid_stroke :
    (run page0 [.startDrawing ⟨0, 0⟩, .draw ⟨1, 0⟩, .pickColor "#ff0000", .updateColor,
        .draw ⟨2, 0⟩, .stopDrawing]).ctx.surface
      = [⟨0, 0, 1, 0, "#000000", 5⟩, ⟨1, 0, 2, 0, "#ff0000", 5⟩]
    ∧ (run page0 [.startDrawing ⟨0, 0⟩, .draw ⟨1, 0⟩, .pickColor "#ff0000", .updateColor,
        .draw ⟨2, 0⟩, .stopDrawing]).paths
      = [⟨[⟨0, 0⟩, ⟨1, 0⟩, ⟨2, 0⟩], ⟨some "#000000", some 5⟩⟩]
    ∧ replayed (run page0 [.startDrawing ⟨0, 0⟩, .draw ⟨1, 0⟩, .pickColor "#ff0000",
        .updateColor, .draw ⟨2, 0⟩, .stopDrawing])
      = some [⟨0, 0, 1, 0, "#000000", 5⟩, ⟨1, 0, 2, 0, "#000000", 5⟩] := by
  decide

/-- C10: after any sequence of events from the initial page every stroke in
`paths` has a point, no listener has thrown, and `redrawCanvas` returns
without a throw; a tap (`startDrawing` then `stopDrawing`) commits a
one-point stroke whose replay paints nothing; and `stopDrawing` with no stroke
open leaves the state as it was. -/
theorem C10_strokes_have_points (color : String) (width : Nat) (result : ResultView)
    (hidden : Bool) (es : List Event) (pos : Point) (s : State) :
    (∀ p ∈ (run (init color width result hidden) es).paths, p.points ≠ [])
    ∧ throws (init color width result hidden) es = false
    ∧ (∃ s', redrawCanvas (run (init color width result hidden) es) = .ok s')
    ∧ (run (init color width result hidden) [.startDrawing pos, .stopDrawing]).paths
        = [⟨[pos], ⟨some color, some width⟩⟩]
    ∧ replayed (run (init color width result hidden) [.startDrawing pos, .stopDrawing])
        = some []
    ∧ stopDrawing { s with isDrawing := false } = { s with isDrawing := false } := by
  have h0 : ∀ p ∈ (init color width result hidden).paths, p.points ≠ [] := by
    intro p hp
    simp [init] at hp
  obtain ⟨h1, h2⟩ := run_nonempty es _ h0
  obtain ⟨s', e, _⟩ := redrawCanvas_total _ h1
  refine ⟨h1, h2, ⟨s', e⟩, rfl, rfl, ?_⟩
  simp [stopDrawing]

/-! ## Claims about recognition requests -/

/-- When a request settles the writes are: hide the indicator once or twice,
then write one view. -/
theorem settleOps_shape (issuer : Issuer) (currentApi : String) (o : Outcome) :
    ∃ v, settleOps issuer currentApi o = [.hideLoading, .setResult v]
      ∨ settleOps issuer currentApi o = [.hideLoading, .hideLoading, .setResult v] := by
  have hthen : ∀ view : Except JsError ResultView,
      ∃ v, thenOps view = [.hideLoading, .setResult v]
        ∨ thenOps view = [.hideLoading, .hideLoading, .setResult v] := by
    intro view
    cases view with
    | ok v => exact ⟨v, Or.inl rfl⟩
    | error e => exact ⟨.requestFailed e, Or.inr rfl⟩
  cases o with
  | rejected e => exact ⟨.requestFailed e, Or.inl rfl⟩
  | badBody e => exact ⟨.requestFailed e, Or.inl rfl⟩
  | parsed data =>
    cases issuer with
    | guessButton => exact hthen (guessButtonView data)
    | windowAiGuess => exact hthen (windowView currentApi data)

/-- If a list of writes splits around a write to the result area, and it is
one of the two shapes of `settleOps_shape`, the part before that write hides
the indicator. -/
theorem hidden_before_write (s : State) (ops pre post : List UiOp) (v w : ResultView)
    (hshape : ops = [.hideLoading, .setResult v] ∨ ops = [.hideLoading, .hideLoading, .setResult v])
    (hsplit : ops = pre ++ .setResult w :: post) :
    (applyOps s pre).loadingHidden = true := by
  rcases hshape with h | h
  · rw [h] at hsplit
    match pre, hsplit with
    | [], hs => simp at hs
    | [a], hs =>
      simp at hs
      rw [← hs.1]
      rfl
    | a :: b :: t, hs => simp at hs
  · rw [h] at hsplit
    match pre, hsplit with
    | [], hs => simp at hs
    | [a], hs => simp at hs
    | [a, b], hs =>
      simp at hs
      rw [← hs.1, ← hs.2.1]
      rfl
    | a :: b :: c :: t, hs => simp at hs

/-- C4, as stated, fails: a second call while the first request is pending
issues a second request, from either function; both requests then settle and
each writes its result, the later one over the earlier. -/
theorem C4_second_submit_issues_request :
    (window.aiGuess page0).pending = [⟨.windowAiGuess, "/api/drawing/recognize", []⟩]
    ∧ (window.aiGuess (window.aiGuess page0)).pending
        = [⟨.windowAiGuess, "/api/drawing/recognize", []⟩,
           ⟨.windowAiGuess, "/api/drawing/recognize", []⟩]
    ∧ (aiGuess (aiGuess page0)).pending
        = [⟨.guessButton, "/api/drawing/doubao/recognize", []⟩,
           ⟨.guessButton, "/api/drawing/doubao/recognize", []⟩]
    ∧ (settle (window.aiGuess (window.aiGuess page0)) 0
          (.parsed (.obj [("success", .bool true), ("prediction", .str "cat"),
            ("confidence", .num 87)]))).resultArea
        = .rated "百度AI" (some (.str "cat")) (some (.num 87))
    ∧ (settle (settle (window.aiGuess (window.aiGuess page0)) 0
          (.parsed (.obj [("success", .bool true), ("prediction", .str "cat"),
            ("confidence", .num 87)]))) 0
          (.parsed (.obj [("success", .bool false), ("message", .str "low confidence")]))).resultArea
        = .recognitionFailed (.str "low confidence") :=
  ⟨by decide, by decide, by decide, rfl, rfl⟩

/-- C4, amended: a call made while earlier requests are pending is handled like
any other: either function shows the indicator, empties the result area and
issues one more request, whatever is pending; and each pending request, when
it settles, leaves the pending list and writes exactly one view, which is then
the content of the result area. -/
theorem C4_every_submit_issues_request (s : State) (i : Nat) (r : Request) (o : Outcome)
    (hr : s.pending[i]? = some r) :
    ((window.aiGuess s).pending
        = s.pending ++ [⟨.windowAiGuess, apiUrl s.currentApi, s.ctx.surface⟩]
      ∧ (window.aiGuess s).loadingHidden = false ∧ (window.aiGuess s).resultArea = .blank)
    ∧ ((aiGuess s).pending
        = s.pending ++ [⟨.guessButton, "/api/drawing/doubao/recognize", s.ctx.surface⟩]
      ∧ (aiGuess s).loadingHidden = false ∧ (aiGuess s).resultArea = .blank)
    ∧ (settle s i o).pending = s.pending.eraseIdx i
    ∧ writes (settleOps r.issuer s.currentApi o) = [(settle s i o).resultArea] := by
  refine ⟨⟨rfl, rfl, rfl⟩, ⟨rfl, rfl, rfl⟩, ?_, ?_⟩
  · obtain ⟨v, h | h⟩ := settleOps_shape r.issuer s.currentApi o
    · simp [settle, hr, h, applyOps, UiOp.apply]
    · simp [settle, hr, h, applyOps, UiOp.apply]
  · obtain ⟨v, h | h⟩ := settleOps_shape r.issuer s.currentApi o
    · simp [settle, hr, h, applyOps, UiOp.apply, writes]
    · simp [settle, hr, h, applyOps, UiOp.apply, writes]

/-- C4, amended, with two requests pending: a third call adds a request, and
the second request settles by a transport error. -/
theorem C4_every_submit_issues_request_witness :
    (window.aiGuess (window.aiGuess page0)).pending[1]?
        = some ⟨.windowAiGuess, "/api/drawing/recognize", []⟩
    ∧ (window.aiGuess (window.aiGuess (window.aiGuess page0))).pending
        = (window.aiGuess (window.aiGuess page0)).pending
            ++ [⟨.windowAiGuess, "/api/drawing/recognize", []⟩]
    ∧ writes (settleOps .windowAiGuess "baidu" (.rejected (.network "Failed to fetch")))
        = [(settle (window.aiGuess (window.aiGuess page0)) 1
            (.rejected (.network "Failed to fetch"))).resultArea] :=
  have h := C4_every_submit_issues_request (window.aiGuess (window.aiGuess page0)) 1
    ⟨.windowAiGuess, "/api/drawing/recognize", []⟩ (.rejected (.network "Failed to fetch"))
    (by decide)
  ⟨by decide, h.1.1, h.2.2.2⟩

/-- C5 at a failing input: on the freshly loaded page the active provider is
`baidu`, whose endpoint is `/api/drawing/recognize`, and the request issued by
the click listener of `guessButton` goes to `/api/drawing/doubao/recognize`;
so it does after the provider is selected again as `baidu`. -/
theorem C5_guess_click_posts_to_doubao :
    page0.currentApi = "baidu"
    ∧ apiUrl page0.currentApi = "/api/drawing/recognize"
    ∧ (aiGuess page0).pending = [⟨.guessButton, "/api/drawing/doubao/recognize", []⟩]
    ∧ (aiGuess (apiSelectorChange page0 "baidu")).pending
        = [⟨.guessButton, "/api/drawing/doubao/recognize", []⟩]
    ∧ (window.aiGuess page0).pending = [⟨.windowAiGuess, "/api/drawing/recognize", []⟩] := by
  decide

/-- C6, as stated, fails: the change listener called with the id `kimi` stores
it, and the next `window.aiGuess` posts to another endpoint than before. -/
theorem C6_unknown_id_is_stored :
    page0.currentApi = "baidu"
    ∧ (apiSelectorChange page0 "kimi").currentApi = "kimi"
    ∧ (window.aiGuess page0).pending = [⟨.windowAiGuess, "/api/drawing/recognize", []⟩]
    ∧ (window.aiGuess (apiSelectorChange page0 "kimi")).pending
        = [⟨.windowAiGuess, "/api/drawing/doubao/recognize", []⟩] := by
  decide

/-- C6, amended: the change listener stores whatever id it is given, without a
check; for every id other than `baidu`, known or not, the next `window.aiGuess`
posts to `/api/drawing/doubao/recognize`, whatever provider was active
before. -/
theorem C6_selection_is_unchecked (s : State) (value : String) (h : value ≠ "baidu") :
    (apiSelectorChange s value).currentApi = value
    ∧ (window.aiGuess (apiSelectorChange s value)).pending
        = s.pending ++ [⟨.windowAiGuess, "/api/drawing/doubao/recognize", s.ctx.surface⟩] := by
  refine ⟨rfl, ?_⟩
  simp [window.aiGuess, apiSelectorChange, apiUrl, h]

/-- C6, amended, at the id `kimi` on the freshly loaded page. -/
theorem C6_selection_is_unchecked_witness :
    "kimi" ≠ "baidu"
    ∧ (apiSelectorChange page0 "kimi").currentApi = "kimi"
    ∧ (window.aiGuess (apiSelectorChange page0 "kimi")).pending
        = page0.pending ++ [⟨.windowAiGuess, "/api/drawing/doubao/recognize", page0.ctx.surface⟩] :=
  ⟨by decide, C6_selection_is_unchecked page0 "kimi" (by decide)⟩

/-- C7: whichever function issued the request and whatever its outcome, after
the writes made when it settles the indicator is hidden; exactly one view is
written to the result area; and at that write the writes made before it have
already hidden the indicator. For a `null` body the callback throws after
hiding the indicator and the `catch` callback writes the error; a body
without a `success` property is reported as a failed recognition. -/
theorem C7_indicator_hidden_on_settle (issuer : Issuer) (currentApi : String) (o : Outcome)
    (s : State) :
    (applyOps s (settleOps issuer currentApi o)).loadingHidden = true
    ∧ (∃ v, writes (settleOps issuer currentApi o) = [v])
    ∧ (∀ pre w post, settleOps issuer currentApi o = pre ++ .setResult w :: post →
        (applyOps s pre).loadingHidden = true)
    ∧ settleOps issuer currentApi (.parsed .null)
        = [.hideLoading, .hideLoading, .setResult (.requestFailed .typeError)]
    ∧ settleOps issuer currentApi (.parsed (.obj []))
        = [.hideLoading, .setResult (.recognitionFailed (.str "未知错误"))] := by
  obtain ⟨v, hshape⟩ := settleOps_shape issuer currentApi o
  refine ⟨?_, ⟨v, ?_⟩, ?_, ?_, ?_⟩
  · rcases hshape with h | h
    · rw [h]
      rfl
    · rw [h]
      rfl
  · rcases hshape with h | h
    · rw [h]
      rfl
    · rw [h]
      rfl
  · intro pre w post hsplit
    exact hidden_before_write s _ pre post v w hshape hsplit
  · cases issuer with
    | guessButton => rfl
    | windowAiGuess => rfl
  · cases issuer with
    | guessButton => rfl
    | windowAiGuess => rfl

end GuessAndDraw
